import Mathlib

/-!
Verification of the buffered VictoriaMetrics write client
(`src/types.ts` / `src/client.ts`): the line-protocol encoder
`formatLineProtocol`, the buffered write engine (`writePoint`, `flush`),
the transport boundary (`send`), and `shutdown`.

The embedding is shallow: JavaScript objects `tags` / `fields` become
association lists in `Object.entries` order (insertion order for the
string keys used throughout), `Date` timestamps become their
`getTime()` millisecond value as an `Int`, and numeric field values are
modelled as exact integers (`Int`), matching JavaScript number
rendering on the integral values the specification and tests exercise.
Regex replaces over single-character classes become per-character
`List.flatMap` expansions, which is exactly the semantics of a global
`replace` with a one-character pattern.
-/

namespace VMClient

/-- Value of one field of a `VMDataPoint`: `number | string | boolean`.
Numbers are modelled as exact integers. -/
inductive FieldValue where
  | str (s : String)
  | boolean (b : Bool)
  | num (n : Int)
  deriving DecidableEq, Repr

/-- A `VMDataPoint`: measurement name, tags, fields (in `Object.entries`
order) and optional timestamp in milliseconds (`Date.getTime()`). -/
structure VMDataPoint where
  measurement : String
  tags : List (String × String)
  fields : List (String × FieldValue)
  timestamp : Option Int
  deriving DecidableEq, Repr

/-- `escapeTag` from `formatLineProtocol`:
`s.replace(/([,= ])/g, '\\$1')` — each comma, equals sign or space is
prefixed with a backslash. -/
def escapeTag (s : String) : String :=
  ⟨s.data.flatMap fun c =>
    if c = ',' ∨ c = '=' ∨ c = ' ' then ['\\', c] else [c]⟩

/-- `escapeStringField` from `formatLineProtocol`:
`s.replace(/\\/g, '\\\\').replace(/"/g, '\\"')` — first double every
backslash, then prefix every double quote with a backslash. -/
def escapeStringField (s : String) : String :=
  let s1 : String := ⟨s.data.flatMap fun c =>
    if c = '\\' then ['\\', '\\'] else [c]⟩
  ⟨s1.data.flatMap fun c => if c = '"' then ['\\', '"'] else [c]⟩

/-- The measurement escape in `formatLineProtocol`:
`point.measurement.replace(/([, ])/g, '\\$1')` — only comma and space
are escaped (the equals sign is left unescaped). -/
def escapeMeasurement (s : String) : String :=
  ⟨s.data.flatMap fun c => if c = ',' ∨ c = ' ' then ['\\', c] else [c]⟩

/-- JavaScript `Array.prototype.join`: the separator goes between
consecutive elements, the empty array joins to the empty string. -/
def joinWith (sep : String) : List String → String
  | [] => ""
  | [x] => x
  | x :: y :: xs => x ++ sep ++ joinWith sep (y :: xs)

/-- The joined tag segment:
`Object.entries(point.tags).map(([k, v]) => escapeTag(k)=escapeTag(v)).join(',')`. -/
def tagsString (tags : List (String × String)) : String :=
  joinWith "," (tags.map fun kv => escapeTag kv.1 ++ "=" ++ escapeTag kv.2)

/-- Rendering of one field entry: the key goes through `escapeTag`;
a string value is double-quoted after `escapeStringField`, a boolean
becomes `t` or `f`, a number its decimal literal. (The source's
`.filter(Boolean)` drops only the `null` produced for values outside
the declared `number | string | boolean` type, so it is the identity
here.) -/
def renderFieldEntry (k : String) (v : FieldValue) : String :=
  let key := escapeTag k
  match v with
  | .str s => key ++ "=\"" ++ escapeStringField s ++ "\""
  | .boolean b => key ++ "=" ++ (if b then "t" else "f")
  | .num n => key ++ "=" ++ toString n

/-- The joined field segment of the line. -/
def fieldsString (fields : List (String × FieldValue)) : String :=
  joinWith "," (fields.map fun kv => renderFieldEntry kv.1 kv.2)

/-- Number of binary digits of `n`, by fuel recursion; the fuel 1100
covers every finite IEEE binary64 value (all below `2 ^ 1024`), far
beyond the products reachable from valid `Date` instants. -/
def bitLenAux : Nat → Nat → Nat
  | 0, _ => 0
  | fuel + 1, n => if n = 0 then 0 else bitLenAux fuel (n / 2) + 1

/-- Binary length of a natural number (0 for 0). -/
def bitLen (n : Nat) : Nat := bitLenAux 1100 n

/-- IEEE-754 binary64 rounding of an integer, round-to-nearest with
ties to even at 53 significant bits: integers below `2 ^ 53` are
exact; larger ones keep their top 53 bits, rounding the rest.
(Overflow to infinity starts near `2 ^ 1024`, unreachable from any
valid `Date` instant times one million.) -/
def roundNatToDouble (n : Nat) : Nat :=
  if n < 2 ^ 53 then n
  else
    let e := bitLen n - 53
    let q := n / 2 ^ e
    let r := n % 2 ^ e
    let half := 2 ^ (e - 1)
    if half < r ∨ (r = half ∧ q % 2 = 1) then (q + 1) * 2 ^ e else q * 2 ^ e

/-- binary64 rounding of an integer value; IEEE rounding is symmetric
under negation. -/
def roundToDouble (x : Int) : Int :=
  if x < 0 then -(roundNatToDouble x.natAbs : Int)
  else (roundNatToDouble x.natAbs : Int)

/-- Number of decimal digits of a natural number. -/
def digitsLen (n : Nat) : Nat := (Nat.repr n).length

/-- Candidate shortest decimal representations of the binary64 value
`m ≥ 2 ^ 53`: pairs `(s, p)` standing for `s * 10 ^ p` with `s` of `k`
decimal digits, such that `s * 10 ^ p` rounds to exactly `m`
(ECMA-262 Number::toString chooses such an `s` with `k` minimal). For
each digit count `k` the only multiples of `10 ^ p` that can be
nearest to `m` are the two straddling it (plus neighbours, kept for
boundary safety), and the value must have `k + p` within one of `m`'s
own digit count. -/
def expCandidates (m : Nat) : List (Nat × Nat) :=
  let d := digitsLen m
  (List.range 17).flatMap fun i =>
    let k := i + 1
    [d - (k + 1), d - k, (d - k) + 1].flatMap fun p =>
      let q := m / 10 ^ p
      [q - 1, q, q + 1].filterMap fun s =>
        if 10 ^ (k - 1) ≤ s ∧ s < 10 ^ k ∧ roundNatToDouble (s * 10 ^ p) = m
        then some (s, p) else none

/-- ECMA-262 preference between two candidates: fewest significant
digits first, then the value closest to `m`, and on a tie the larger
`s`. -/
def betterCand (m : Nat) (a b : Nat × Nat) : Nat × Nat :=
  let ka := digitsLen a.1
  let kb := digitsLen b.1
  let va := a.1 * 10 ^ a.2
  let vb := b.1 * 10 ^ b.2
  let da := max va m - min va m
  let db := max vb m - min vb m
  if ka < kb then a
  else if kb < ka then b
  else if da < db then a
  else if db < da then b
  else if b.1 ≤ a.1 then a
  else b

/-- The ECMA-262 choice of shortest decimal among the candidates. -/
def pickBest (m : Nat) : List (Nat × Nat) → Option (Nat × Nat)
  | [] => none
  | c :: cs => some (cs.foldl (betterCand m) c)

/-- Mantissa rendering for exponential notation: a single digit, or
the first digit, a decimal point, and the remaining digits. -/
def expMantissa (s : Nat) : String :=
  match (Nat.repr s).data with
  | [] => Nat.repr s
  | [_] => Nat.repr s
  | c :: rest => String.mk [c] ++ "." ++ String.mk rest

/-- ECMA-262 `Number::toString` (radix 10) for a non-negative integral
binary64 value `m`. Below `2 ^ 53` the value is exact and the shortest
decimal that rounds back to it is `m` itself (the rounding interval
around `m` is at most one wide), so the digits of `m` are emitted.
Otherwise the shortest round-tripping `s * 10 ^ p` is chosen; with
decimal exponent below 21 it is written positionally (digits of `s`
then `p` zeros), from `10 ^ 21` upward in exponential notation. The
`none` fallback is unreachable: every binary64 value round-trips
within 17 significant digits. -/
def jsNatToString (m : Nat) : String :=
  if m < 2 ^ 53 then Nat.repr m
  else
    match pickBest m (expCandidates m) with
    | some (s, p) =>
        let n := digitsLen s + p
        if n ≤ 21 then Nat.repr s ++ String.mk (List.replicate p '0')
        else expMantissa s ++ "e+" ++ Nat.repr (n - 1)
    | none => Nat.repr m

/-- ECMA-262 `Number::toString` on integral values: a negative value
is the minus sign followed by the rendering of its magnitude. -/
def jsNumberToString (x : Int) : String :=
  if x < 0 then "-" ++ jsNatToString x.natAbs else jsNatToString x.natAbs

/-- Timestamp rendering: `point.timestamp ?
(point.timestamp.getTime() * 1_000_000).toString() : ''`. The
`getTime()` millisecond instant is an integral double (valid `Date`
instants lie within ±8.64e15, all exactly representable); the
multiplication is binary64 multiplication, i.e. the correctly rounded
exact product (`roundToDouble`), and `.toString()` is ECMA-262
`Number::toString` (`jsNumberToString`). -/
def renderTimestamp : Option Int → String
  | some ms => jsNumberToString (roundToDouble (ms * 1000000))
  | none => ""

/-- JavaScript `String.prototype.trim` restricted to the ASCII
whitespace characters that can occur here. -/
def isJsWhitespace (c : Char) : Bool :=
  c = ' ' ∨ c = '\t' ∨ c = '\n' ∨ c = '\r' ∨ c = '\x0b' ∨ c = '\x0c'

/-- JavaScript `trim`: strip leading and trailing whitespace. -/
def jsTrim (s : String) : String :=
  ⟨((s.data.dropWhile isJsWhitespace).reverse.dropWhile isJsWhitespace).reverse⟩

/-- `formatLineProtocol` from `src/client.ts`: serialize one point to
one line, or fail when the joined field segment is empty. -/
def formatLineProtocol (point : VMDataPoint) : Except String String :=
  let tags := tagsString point.tags
  let fields := fieldsString point.fields
  if fields.length = 0 then
    .error "Data point must have at least one field"
  else
    let measurement := escapeMeasurement point.measurement
    let timestamp := renderTimestamp point.timestamp
    let measurementAndTags :=
      if tags.length > 0 then measurement ++ "," ++ tags else measurement
    .ok (jsTrim (measurementAndTags ++ " " ++ fields ++ " " ++ timestamp))

/-- `writePoint` from `src/client.ts`: format the point and append the
line to the buffer; on a formatting error the error is logged and the
buffer is left unchanged (nothing is thrown to the caller). The
returned flag records whether the threshold check
`this.buffer.length >= this.options.batchSize` fired the background
flush; the flush itself runs as an independent task, so the buffer
returned here is the post-push buffer, untouched by any flush. -/
def writePoint (batchSize : Nat) (buffer : List String) (point : VMDataPoint) :
    List String × Bool :=
  match formatLineProtocol point with
  | .error _ => (buffer, false)
  | .ok line =>
      let buffer' := buffer ++ [line]
      (buffer', decide (batchSize ≤ buffer'.length))

/-- Iterated `writePoint` calls; the Boolean accumulates whether any
call triggered a background flush. -/
def writeMany (batchSize : Nat) (buffer : List String) (triggered : Bool) :
    List VMDataPoint → List String × Bool
  | [] => (buffer, triggered)
  | p :: ps =>
      let r := writePoint batchSize buffer p
      writeMany batchSize r.1 (triggered || r.2) ps

/-- State of the buffered write engine between atomic steps of the
event loop: the queue, the snapshot currently being sent (if a flush
is between its drain and its send result), and the lines delivered so
far in send order. -/
structure ClientState where
  buffer : List String
  inFlight : Option (List String)
  delivered : List String
  deriving DecidableEq, Repr

/-- The synchronous critical sections of the engine, each atomic on the
JavaScript event loop: `enq` is `writePoint`'s push; `flushStart` is
`flush` acquiring the mutex and running `splice(0)` (a no-op on an
empty buffer); `sendOk` / `sendFail` is `send` resolving, with failure
running `unshift(...dataToSend)`. -/
inductive Event where
  | enq (line : String)
  | flushStart
  | sendOk
  | sendFail
  deriving DecidableEq, Repr

/-- One atomic step. `flushStart` is only enabled while no other flush
holds the mutex (`inFlight = none`); a send result is only enabled
while a snapshot is in flight. -/
def step (s : ClientState) : Event → Option ClientState
  | .enq line => some { s with buffer := s.buffer ++ [line] }
  | .flushStart =>
      match s.inFlight with
      | some _ => none
      | none =>
          if s.buffer = [] then some s
          else some { s with buffer := [], inFlight := some s.buffer }
  | .sendOk =>
      match s.inFlight with
      | some snap => some { s with inFlight := none, delivered := s.delivered ++ snap }
      | none => none
  | .sendFail =>
      match s.inFlight with
      | some snap => some { s with buffer := snap ++ s.buffer, inFlight := none }
      | none => none

/-- Run a sequence of atomic steps. -/
def run (s : ClientState) : List Event → Option ClientState
  | [] => some s
  | e :: es =>
      match step s e with
      | some s' => run s' es
      | none => none

/-- The lines enqueued along a trace, in order. -/
def enqLines : List Event → List String
  | [] => []
  | .enq l :: es => l :: enqLines es
  | .flushStart :: es => enqLines es
  | .sendOk :: es => enqLines es
  | .sendFail :: es => enqLines es

/-- The lines of the in-flight snapshot, if any. -/
def inFlightLines (s : ClientState) : List String :=
  s.inFlight.getD []

/-- The client state at construction: empty buffer, no flush running,
nothing delivered. -/
def initState : ClientState := ⟨[], none, []⟩

/-- Client state for the shutdown/timer contract: the buffer together
with whether the periodic `setInterval` timer is still installed. -/
structure TimedClient where
  buffer : List String
  timerActive : Bool
  deriving DecidableEq, Repr

/-- One whole `flush` cycle on the buffer alone, with the send outcome
as a parameter: an empty buffer is a no-op; otherwise the buffer is
drained and, on failure, the snapshot is unshifted back. -/
def flushBuffer (buffer : List String) (sendOk : Bool) : List String :=
  if buffer = [] then buffer
  else if sendOk then [] else buffer

/-- `shutdown` from `src/client.ts`: `clearInterval(this.timerId)` and
then `await this.flush()` — the timer is stopped before the final
flush, and the flush has resolved when `shutdown` returns. -/
def shutdown (c : TimedClient) (sendOk : Bool) : TimedClient :=
  let stopped : TimedClient := { c with timerActive := false }
  { stopped with buffer := flushBuffer stopped.buffer sendOk }

/-- One firing of the periodic timer: a flush runs only while the
interval timer is installed. The returned flag records whether a flush
was performed. -/
def timerTick (c : TimedClient) (sendOk : Bool) : TimedClient × Bool :=
  if c.timerActive then ({ c with buffer := flushBuffer c.buffer sendOk }, true)
  else (c, false)

/-- The request that `send` builds: `points.join('\n')` as the body and
an `Authorization` header added under the truthiness test
`if (this.options.auth?.bearer)`. The configured bearer credential is
modelled as `Option String` (`none` when no `auth` was given). -/
structure SendRequest where
  body : String
  authHeader : Option String
  deriving DecidableEq, Repr

/-- Build the wire request exactly as `send` does. -/
def buildSendRequest (auth : Option String) (points : List String) : SendRequest :=
  { body := joinWith "\n" points
    authHeader :=
      match auth with
      | some bearer => if bearer = "" then none else some ("Bearer " ++ bearer)
      | none => none }

/-- Outcome of `send` as a function of the response: any status other
than 204 throws an error carrying the status and the response body. -/
def sendResult (status : Nat) (respText : String) : Except String Unit :=
  if status = 204 then .ok ()
  else
    .error ("[VMClient] Server responded with status " ++ toString status ++ ": "
      ++ respText)

/-- A sample point used to instantiate hypotheses at concrete inputs. -/
def samplePoint : VMDataPoint :=
  ⟨"m", [], [("x", FieldValue.num 1)], none⟩

lemma renderFieldEntry_eq (k : String) (v : FieldValue) :
    ∃ rest : String, renderFieldEntry k v = escapeTag k ++ "=" ++ rest := by
  cases v with
  | str s =>
      refine ⟨"\"" ++ escapeStringField s ++ "\"", ?_⟩
      apply String.ext
      have d1 : ("=\"" : String).data = ['=', '"'] := rfl
      have d2 : ("=" : String).data = ['='] := rfl
      have d3 : ("\"" : String).data = ['"'] := rfl
      simp [renderFieldEntry, String.data_append, d1, d2, d3]
  | boolean b => exact ⟨if b then "t" else "f", rfl⟩
  | num n => exact ⟨toString n, rfl⟩

lemma renderFieldEntry_length_pos (k : String) (v : FieldValue) :
    0 < (renderFieldEntry k v).length := by
  obtain ⟨rest, hrest⟩ := renderFieldEntry_eq k v
  have : ("=" : String).length = 1 := rfl
  simp [hrest, String.length_append, this]

lemma fieldsString_length_pos (k : String) (v : FieldValue)
    (fs : List (String × FieldValue)) :
    0 < (fieldsString ((k, v) :: fs)).length := by
  have h := renderFieldEntry_length_pos k v
  cases fs with
  | nil => simpa [fieldsString, joinWith] using h
  | cons kv fs =>
      have : fieldsString ((k, v) :: kv :: fs) =
          renderFieldEntry k v ++ "," ++ fieldsString (kv :: fs) := by
        simp [fieldsString, joinWith]
      rw [this]
      simp [String.length_append]
      omega

lemma formatLineProtocol_ok (p : VMDataPoint) (h : p.fields ≠ []) :
    ∃ l, formatLineProtocol p = .ok l := by
  rw [formatLineProtocol]
  match hf : p.fields with
  | [] => exact absurd hf h
  | (k, v) :: fs =>
      have hpos := fieldsString_length_pos k v fs
      rw [if_neg (by omega)]
      exact ⟨_, rfl⟩

end VMClient

namespace VMClient

/-- Claim C8: encoding the point
`measurement logs, tags (app, main), fields (level, info string),
(active, true), (count, 2)` with no timestamp yields exactly
`logs,app=main level="info",active=t,count=2`: the string field is
double-quoted, the boolean renders as the single character `t`, the
number as its decimal literal, and the trailing space left by the
absent timestamp is trimmed away. -/
theorem c8_example_line :
    formatLineProtocol
      ⟨"logs", [("app", "main")],
        [("level", .str "info"), ("active", .boolean true), ("count", .num 2)],
        none⟩ =
      .ok "logs,app=main level=\"info\",active=t,count=2" := by
  rfl

lemma roundNatToDouble_small (n : Nat) (h : n < 2 ^ 53) :
    roundNatToDouble n = n := by
  rw [roundNatToDouble, if_pos h]

lemma roundToDouble_small (x : Int) (h : x.natAbs < 2 ^ 53) :
    roundToDouble x = x := by
  rw [roundToDouble, roundNatToDouble_small _ h]
  by_cases hx : x < 0
  · rw [if_pos hx]
    omega
  · rw [if_neg hx]
    omega

lemma jsNumberToString_small (x : Int) (h : x.natAbs < 2 ^ 53) :
    jsNumberToString x = toString x := by
  cases x with
  | ofNat n =>
      have hx : ¬ Int.ofNat n < 0 := Int.not_lt.mpr (Int.ofNat_nonneg n)
      rw [jsNumberToString, if_neg hx]
      show jsNatToString n = _
      have hn : n < 2 ^ 53 := h
      rw [jsNatToString, if_pos hn]
      rfl
  | negSucc n =>
      rw [jsNumberToString, if_pos (Int.negSucc_lt_zero n)]
      show "-" ++ jsNatToString (n + 1) = _
      have hn : n + 1 < 2 ^ 53 := h
      rw [jsNatToString, if_pos hn]
      rfl

/-- Claim C9 counterexample: at the valid millisecond instant `10^15`
(well inside the ±8.64e15 `Date` range) the program renders the
timestamp as the exponential-notation string `1e+21` — ECMA-262
`Number::toString` switches to exponential notation at magnitude
`10^21` — and not as the decimal integer string of
`10^15 * 10^6 = 10^21`, so the claim's universally quantified
decimal-integer rendering is false of the code. -/
theorem c9_exponential_notation :
    renderTimestamp (some 1000000000000000) = "1e+21" ∧
    toString ((1000000000000000 : Int) * 1000000) = "1000000000000000000000" ∧
    ("1e+21" : String) ≠ "1000000000000000000000" :=
  ⟨by decide, by decide, by decide⟩

/-- Claim C9 as amended: when the millisecond instant times one
million stays below `2 ^ 53` the binary64 product is exact and
rendered as exactly the decimal integer string of `ms * 10^6`; the
claim's concrete instance holds — millisecond instant 1700000000000
renders as the nanosecond integer 1700000000000000000 (its product is
exactly representable and printed positionally) — an absent timestamp
is emitted empty, and on a full point the nanosecond integer is
appended after the fields. Above `2 ^ 53` the product rounds, and from
`10 ^ 21` the rendering is exponential, as the counterexample shows. -/
theorem c9_timestamp_amended (ms : Int)
    (h : (ms * 1000000).natAbs < 2 ^ 53) :
    renderTimestamp (some ms) = toString (ms * 1000000) ∧
    renderTimestamp (some 1700000000000) = "1700000000000000000" ∧
    renderTimestamp none = "" ∧
    formatLineProtocol ⟨"m", [], [("x", .num 1)], some 1700000000000⟩ =
      .ok "m x=1 1700000000000000000" := by
  refine ⟨?_, by decide, rfl, rfl⟩
  show jsNumberToString (roundToDouble (ms * 1000000)) = _
  rw [roundToDouble_small _ h, jsNumberToString_small _ h]

/-- Witness for C9 at the millisecond instant 1700000000, whose
nanosecond product 1.7e15 is below `2 ^ 53`. -/
theorem c9_timestamp_amended_witness :
    renderTimestamp (some 1700000000) =
        toString ((1700000000 : Int) * 1000000) ∧
    renderTimestamp (some 1700000000000) = "1700000000000000000" ∧
    renderTimestamp none = "" ∧
    formatLineProtocol ⟨"m", [], [("x", .num 1)], some 1700000000000⟩ =
      .ok "m x=1 1700000000000000000" :=
  c9_timestamp_amended 1700000000 (by decide)

/-- Claim C5: a point with an empty fields mapping makes the encoder
fail with the no-fields error, and `writePoint` on such a point
returns normally (the error is only reported, never thrown), leaves
the buffer exactly unchanged, and triggers no flush. -/
theorem c5_empty_fields_dropped (p : VMDataPoint) (h : p.fields = [])
    (batchSize : Nat) (buffer : List String) :
    formatLineProtocol p = .error "Data point must have at least one field" ∧
    writePoint batchSize buffer p = (buffer, false) := by
  have hf : formatLineProtocol p = .error "Data point must have at least one field" := by
    rw [formatLineProtocol]
    have h0 : ("" : String).length = 0 := rfl
    simp [h, fieldsString, joinWith, h0]
  exact ⟨hf, by rw [writePoint, hf]⟩

/-- Witness for C5 at the concrete point with measurement `m`, one tag
and no fields, a batch size of 10 and a one-line buffer. -/
theorem c5_empty_fields_dropped_witness :
    formatLineProtocol ⟨"m", [("a", "b")], [], none⟩ =
        .error "Data point must have at least one field" ∧
    writePoint 10 ["m x=1"] ⟨"m", [("a", "b")], [], none⟩ = (["m x=1"], false) :=
  c5_empty_fields_dropped ⟨"m", [("a", "b")], [], none⟩ rfl 10 ["m x=1"]

/-- Claim C2 counterexample: the measurement escape leaves the equals
sign unescaped. Encoding a point whose measurement is `a=b` yields the
line `a=b x=2`, not the `a\=b x=2` the claim requires: the measurement
escape differs from the tag escape exactly on the equals sign. -/
theorem c2_measurement_equals_unescaped :
    formatLineProtocol ⟨"a=b", [], [("x", .num 2)], none⟩ = .ok "a=b x=2" ∧
    escapeMeasurement "a=b" = "a=b" ∧
    escapeTag "a=b" = "a\\=b" ∧
    ("a=b x=2" : String) ≠ "a\\=b x=2" := by
  exact ⟨rfl, rfl, rfl, by decide⟩

/-- Claim C2 as amended: within every tag key and tag value each comma,
equals sign and space is escaped with a preceding backslash; within
the measurement name only comma and space are escaped (the equals sign
is left as-is); string field values additionally have backslash and
double quote escaped; and the encoder applies exactly these escapes to
the respective components of the line. -/
theorem c2_escaping_amended (m k v s fk : String) (fv : FieldValue)
    (fs : List (String × FieldValue)) (ts : Option Int) :
    (escapeTag k).data =
      k.data.flatMap
        (fun c => if c = ',' ∨ c = '=' ∨ c = ' ' then ['\\', c] else [c]) ∧
    (escapeMeasurement m).data =
      m.data.flatMap (fun c => if c = ',' ∨ c = ' ' then ['\\', c] else [c]) ∧
    (escapeStringField s).data =
      s.data.flatMap
        (fun c =>
          if c = '\\' then ['\\', '\\']
          else if c = '"' then ['\\', '"'] else [c]) ∧
    renderFieldEntry fk (.str s) =
      escapeTag fk ++ "=\"" ++ escapeStringField s ++ "\"" ∧
    tagsString [(k, v)] = escapeTag k ++ "=" ++ escapeTag v ∧
    formatLineProtocol ⟨m, [(k, v)], (fk, fv) :: fs, ts⟩ =
      .ok (jsTrim ((if (tagsString [(k, v)]).length > 0 then
          escapeMeasurement m ++ "," ++ tagsString [(k, v)]
        else escapeMeasurement m) ++ " " ++ fieldsString ((fk, fv) :: fs) ++ " "
          ++ renderTimestamp ts)) := by
  refine ⟨rfl, rfl, ?_, rfl, by simp [tagsString, joinWith], ?_⟩
  · show (s.data.flatMap fun c => if c = '\\' then ['\\', '\\'] else [c]).flatMap
        (fun c => if c = '"' then ['\\', '"'] else [c]) = _
    induction s.data with
    | nil => rfl
    | cons c cs ih =>
        by_cases h1 : c = '\\'
        · simp [List.flatMap_cons, h1, ih]
        · by_cases h2 : c = '"' <;> simp [List.flatMap_cons, h1, h2, ih]
  · have hpos := fieldsString_length_pos fk fv fs
    have hne : ¬ (fieldsString ((fk, fv) :: fs)).length = 0 := by omega
    rw [formatLineProtocol]
    rw [if_neg hne]

/-- Claim C10: in every rendered field entry the field key goes
through the same escape as tag keys and values: each comma, equals
sign and space in the key is preceded by a backslash, and the entry is
that escaped key, an equals sign, and the rendered value. -/
theorem c10_field_keys_tag_escaped (k : String) (v : FieldValue) :
    (∃ rest : String, renderFieldEntry k v = escapeTag k ++ "=" ++ rest) ∧
    (escapeTag k).data =
      k.data.flatMap
        (fun c => if c = ',' ∨ c = '=' ∨ c = ' ' then ['\\', c] else [c]) :=
  ⟨renderFieldEntry_eq k v, rfl⟩

/-- Claim C6: `shutdown` stops the periodic timer permanently before
performing the final flush and awaits that flush; when the transport
send succeeds the buffer is empty afterwards, and a timer firing after
shutdown performs no further flush and changes nothing. -/
theorem c6_shutdown (c : TimedClient) (ok : Bool) :
    (shutdown c true).buffer = [] ∧
    (shutdown c true).timerActive = false ∧
    timerTick (shutdown c true) ok = (shutdown c true, false) := by
  refine ⟨?_, rfl, ?_⟩
  · simp only [shutdown, flushBuffer]
    split
    · assumption
    · rfl
  · simp [timerTick, shutdown]

/-- Claim C7 counterexample: with an auth configuration whose bearer
token is the empty string, `send` attaches no Authorization header
(the source guards with the truthiness test
`if (this.options.auth?.bearer)`), although a bearer token is
configured (`some` is not `none`). -/
theorem c7_empty_bearer_no_header :
    (buildSendRequest (some "") ["m x=1"]).authHeader = none ∧
    (some "" : Option String).isSome = true :=
  ⟨rfl, rfl⟩

/-- Claim C7 as amended: `send` joins the lines with newline
separators as the payload, attaches the bearer Authorization header
exactly when a non-empty bearer token is configured, succeeds exactly
on status 204, and on any other status fails with an error carrying
the status and the response body. -/
theorem c7_send_amended (auth : Option String) (points : List String)
    (status : Nat) (respText : String) :
    (buildSendRequest auth points).body = joinWith "\n" points ∧
    ((buildSendRequest auth points).authHeader.isSome ↔
      ∃ b, auth = some b ∧ b ≠ "") ∧
    ((buildSendRequest auth points).authHeader =
      auth.bind fun b => if b = "" then none else some ("Bearer " ++ b)) ∧
    (sendResult status respText = .ok () ↔ status = 204) ∧
    sendResult status respText =
      (if status = 204 then .ok ()
       else .error ("[VMClient] Server responded with status " ++ toString status
         ++ ": " ++ respText)) := by
  refine ⟨rfl, ?_, ?_, ?_, rfl⟩
  · cases auth with
    | none => simp [buildSendRequest]
    | some b =>
        by_cases hb : b = "" <;> simp [buildSendRequest, hb]
  · cases auth with
    | none => rfl
    | some b => by_cases hb : b = "" <;> simp [buildSendRequest, hb, Option.bind]
  · rw [sendResult]
    by_cases hs : status = 204 <;> simp [hs]

end VMClient

namespace VMClient

lemma run_append (s : ClientState) (es1 es2 : List Event) :
    run s (es1 ++ es2) = (run s es1).bind fun s' => run s' es2 := by
  induction es1 generalizing s with
  | nil => simp [run]
  | cons e es ih =>
      simp only [List.cons_append, run]
      cases step s e with
      | none => rfl
      | some s' => simp [ih]

lemma run_enqs (s : ClientState) (mids : List String) :
    run s (mids.map Event.enq) = some { s with buffer := s.buffer ++ mids } := by
  induction mids generalizing s with
  | nil => simp [run]
  | cons m ms ih =>
      simp only [List.map_cons, run, step, Option.bind]
      rw [ih]
      simp

/-- Claim C1: if a flush drains a non-empty buffer as its snapshot,
`mids` are enqueued while the send is in flight, and the send fails,
then the failed snapshot is re-inserted at the front of the queue in
its original order, ahead of `mids`; the next flush's snapshot is
exactly the failed snapshot followed by `mids`, with nothing lost,
duplicated, or delivered. -/
theorem c1_failed_flush_requeue (buffer mids : List String) (h : buffer ≠ []) :
    run ⟨buffer, none, []⟩
        (Event.flushStart ::
          (mids.map Event.enq ++ [Event.sendFail, Event.flushStart])) =
      some ⟨[], some (buffer ++ mids), []⟩ := by
  have hne : buffer ++ mids ≠ [] := fun hc => h (List.append_eq_nil.mp hc).1
  have e1 : step ⟨buffer, none, []⟩ Event.flushStart = some ⟨[], some buffer, []⟩ := by
    simp [step, h]
  have e2 : run ⟨[], some buffer, []⟩ (mids.map Event.enq) =
      some ⟨mids, some buffer, []⟩ := by
    simpa using run_enqs ⟨[], some buffer, []⟩ mids
  have e3 : step ⟨mids, some buffer, []⟩ Event.sendFail =
      some ⟨buffer ++ mids, none, []⟩ := by
    simp [step]
  have e4 : step ⟨buffer ++ mids, none, []⟩ Event.flushStart =
      some ⟨[], some (buffer ++ mids), []⟩ := by
    simp [step, hne]
  simp [run, run_append, e1, e2, e3, e4]

/-- Witness for C1: the failed snapshot `a, b` with `c` enqueued
during the send attempt yields `a, b, c` as the next snapshot. -/
theorem c1_failed_flush_requeue_witness :
    run ⟨["a", "b"], none, []⟩
        (Event.flushStart ::
          (["c"].map Event.enq ++ [Event.sendFail, Event.flushStart])) =
      some ⟨[], some ["a", "b", "c"], []⟩ :=
  c1_failed_flush_requeue ["a", "b"] ["c"] (by decide)

lemma inFlightLines_def (s : ClientState) :
    inFlightLines s = s.inFlight.getD [] := rfl

lemma run_count (s0 : ClientState) (evs : List Event) (s : ClientState)
    (h : run s0 evs = some s) (l : String) :
    (enqLines evs).count l + s0.buffer.count l + (inFlightLines s0).count l
        + s0.delivered.count l =
      s.buffer.count l + (inFlightLines s).count l + s.delivered.count l := by
  induction evs generalizing s0 with
  | nil =>
      simp only [run, Option.some.injEq] at h
      subst h
      simp [enqLines]
  | cons e es ih =>
      simp only [run] at h
      cases he : step s0 e with
      | none => rw [he] at h; exact absurd h (by simp)
      | some s1 =>
          rw [he] at h
          simp only [Option.some_bind] at h
          have hrec := ih s1 h
          cases e with
          | enq m =>
              simp only [step, Option.some.injEq] at he
              subst he
              simp only [enqLines, inFlightLines_def, List.count_append,
                List.count_cons] at hrec ⊢
              by_cases hm : m = l <;> simp [hm] at hrec ⊢ <;> omega
          | flushStart =>
              simp only [step] at he
              cases hif : s0.inFlight with
              | some snap => rw [hif] at he; exact absurd he (by simp)
              | none =>
                  rw [hif] at he
                  by_cases hb : s0.buffer = []
                  · rw [if_pos hb] at he
                    simp only [Option.some.injEq] at he
                    subst he
                    simpa [enqLines] using hrec
                  · rw [if_neg hb] at he
                    simp only [Option.some.injEq] at he
                    subst he
                    simp only [enqLines, inFlightLines_def, hif, Option.getD_none,
                      Option.getD_some, List.count_nil] at hrec ⊢
                    omega
          | sendOk =>
              simp only [step] at he
              cases hif : s0.inFlight with
              | none => rw [hif] at he; exact absurd he (by simp)
              | some snap =>
                  rw [hif] at he
                  simp only [Option.some.injEq] at he
                  subst he
                  simp only [enqLines, inFlightLines_def, hif, Option.getD_none,
                    Option.getD_some, List.count_append, List.count_nil] at hrec ⊢
                  omega
          | sendFail =>
              simp only [step] at he
              cases hif : s0.inFlight with
              | none => rw [hif] at he; exact absurd he (by simp)
              | some snap =>
                  rw [hif] at he
                  simp only [Option.some.injEq] at he
                  subst he
                  simp only [enqLines, inFlightLines_def, hif, Option.getD_none,
                    Option.getD_some, List.count_append, List.count_nil] at hrec ⊢
                  omega

/-- Claim C3: along every valid interleaving of enqueues, drains and
send results starting from the freshly constructed client, each line
value is conserved: its number of enqueues equals its occurrences in
the queue, plus in the in-flight snapshot, plus among the delivered
lines — no line is lost, duplicated, delivered twice, or present in
two snapshots at once (at most one snapshot exists, since a drain is
only enabled while no flush is in flight). -/
theorem c3_no_loss_no_duplication (evs : List Event) (s : ClientState)
    (h : run initState evs = some s) (l : String) :
    (enqLines evs).count l =
      s.buffer.count l + (inFlightLines s).count l + s.delivered.count l := by
  have := run_count initState evs s h l
  simpa [initState, inFlightLines] using this

/-- Witness for C3: a trace with an enqueue racing a failed flush and
a later successful one; the line `a` is enqueued twice, delivered
twice, and the final state holds no copy of it. -/
theorem c3_no_loss_no_duplication_witness :
    (enqLines
        [Event.enq "a", Event.enq "b", Event.flushStart, Event.enq "a",
          Event.sendFail, Event.flushStart, Event.sendOk]).count "a" =
      (([] : List String).count "a"
        + (inFlightLines ⟨[], none, ["a", "b", "a"]⟩).count "a"
        + (["a", "b", "a"] : List String).count "a") :=
  c3_no_loss_no_duplication
    [Event.enq "a", Event.enq "b", Event.flushStart, Event.enq "a",
      Event.sendFail, Event.flushStart, Event.sendOk]
    ⟨[], none, ["a", "b", "a"]⟩ (by rfl) "a"

lemma writePoint_ok_line (batchSize : Nat) (buffer : List String)
    (p : VMDataPoint) (line : String) (hl : formatLineProtocol p = .ok line) :
    writePoint batchSize buffer p =
      (buffer ++ [line], decide (batchSize ≤ buffer.length + 1)) := by
  rw [writePoint, hl]
  simp

lemma writeMany_spec (batchSize : Nat) (ps : List VMDataPoint)
    (hps : ∀ p ∈ ps, p.fields ≠ []) (buffer : List String) (acc : Bool) :
    (writeMany batchSize buffer acc ps).1.length = buffer.length + ps.length ∧
    ((writeMany batchSize buffer acc ps).2 = true ↔
      (acc = true ∨ (ps ≠ [] ∧ batchSize ≤ buffer.length + ps.length))) := by
  induction ps generalizing buffer acc with
  | nil => simp [writeMany]
  | cons p ps ih =>
      obtain ⟨line, hline⟩ :=
        formatLineProtocol_ok p (hps p (List.mem_cons_self p ps))
      have hstep : writeMany batchSize buffer acc (p :: ps) =
          writeMany batchSize (buffer ++ [line])
            (acc || decide (batchSize ≤ buffer.length + 1)) ps := by
        rw [writeMany, writePoint_ok_line batchSize buffer p line hline]
      rw [hstep]
      have hps' : ∀ q ∈ ps, q.fields ≠ [] :=
        fun q hq => hps q (List.mem_cons_of_mem p hq)
      obtain ⟨ih1, ih2⟩ := ih hps' (buffer ++ [line])
        (acc || decide (batchSize ≤ buffer.length + 1))
      constructor
      · rw [ih1, List.length_append]
        simp only [List.length_singleton, List.length_cons, List.length_nil]
        omega
      · rw [ih2]
        simp only [List.length_append, List.length_cons, List.length_nil,
          Bool.or_eq_true, decide_eq_true_eq, List.length_singleton]
        constructor
        · rintro (⟨ha | hd⟩ | ⟨hne, hle⟩)
          · exact Or.inl ha
          · exact Or.inr ⟨List.cons_ne_nil p ps, by omega⟩
          · exact Or.inr ⟨List.cons_ne_nil p ps, by omega⟩
        · rintro (ha | ⟨hne, hle⟩)
          · exact Or.inl (Or.inl ha)
          · by_cases hp0 : ps = []
            · subst hp0
              simp only [List.length_nil] at hle
              exact Or.inl (Or.inr (by omega))
            · exact Or.inr ⟨hp0, by omega⟩

/-- Claim C4: starting from an empty buffer, a sequence of exactly
`batchSize` successfully encoded `writePoint` calls with no
intervening flush triggers the background flush, while a sequence of
`batchSize - 1` such calls does not; in both cases every pushed line
is still in the returned buffer — `writePoint` only schedules the
flush as a background task and never performs (or waits on) the drain
or any network send itself. -/
theorem c4_batch_threshold (batchSize : Nat) (ps qs : List VMDataPoint)
    (hbs : 0 < batchSize)
    (hps : ∀ p ∈ ps, p.fields ≠ []) (hqs : ∀ p ∈ qs, p.fields ≠ [])
    (hlps : ps.length = batchSize) (hlqs : qs.length = batchSize - 1) :
    (writeMany batchSize [] false ps).2 = true ∧
    (writeMany batchSize [] false ps).1.length = batchSize ∧
    (writeMany batchSize [] false qs).2 = false ∧
    (writeMany batchSize [] false qs).1.length = batchSize - 1 := by
  obtain ⟨hp1, hp2⟩ := writeMany_spec batchSize ps hps [] false
  obtain ⟨hq1, hq2⟩ := writeMany_spec batchSize qs hqs [] false
  refine ⟨?_, ?_, ?_, ?_⟩
  · rw [hp2]
    refine Or.inr ⟨?_, by simp [hlps]⟩
    intro hnil
    rw [hnil] at hlps
    simp at hlps
    omega
  · simpa [hlps] using hp1
  · rcases hb : (writeMany batchSize [] false qs).2 with _ | _
    · rfl
    · exfalso
      rcases hq2.mp hb with hfa | ⟨hne, hle⟩
      · exact Bool.false_ne_true hfa
      · simp only [List.length_nil, Nat.zero_add, hlqs] at hle
        omega
  · simpa [hlqs] using hq1

/-- Witness for C4 with batch size 2: two encodable points trigger the
flush and one does not, and the returned buffers hold all pushed
lines. -/
theorem c4_batch_threshold_witness :
    (writeMany 2 [] false [samplePoint, samplePoint]).2 = true ∧
    (writeMany 2 [] false [samplePoint, samplePoint]).1.length = 2 ∧
    (writeMany 2 [] false [samplePoint]).2 = false ∧
    (writeMany 2 [] false [samplePoint]).1.length = 2 - 1 :=
  c4_batch_threshold 2 [samplePoint, samplePoint] [samplePoint]
    (by decide)
    (by intro p hp; simp [samplePoint] at hp; simp [hp, samplePoint])
    (by intro p hp; simp [samplePoint] at hp; simp [hp, samplePoint])
    rfl rfl

end VMClient
